import Mathlib

/-!
Verification of the earnings-agent ingest/extract/delta services.

This file gives a shallow embedding, in Lean 4, of the parts of the
repository that the claims C1..C10 are about:

* `src/app/services/ingest.py` — idempotency index (`_index_load`,
  `_index_get_recent`), content-type validation
  (`_is_allowed_content_type`), extension choice (`_get_extension`),
  save-path construction (`build_save_path`), the streaming size
  enforcement loop, the single-attempt fetch (`fetch_to_disk` body) and
  the tenacity retry wrapper (`_is_retryable`, `stop_after_attempt(3)`,
  `reraise=True`).
* `src/app/services/extract.py` — `latest_file_for_ticker`.
* `src/app/services/delta.py` — `_pct_change`.

Modelling conventions:

* Python strings are modelled as `List Char` (`Str`); Python `None` for
  an optional string is `Option Str`, and Python truthiness of a string
  (`if s:`) is `optTruthy` (false for both `None` and `""`).
* Python floats are modelled as rationals (`ℚ`); `round(x, 2)` is
  modelled as exact round-half-to-even at two decimals (`pyRound2`),
  which is Python's rounding rule applied to the exact value.
* The filesystem and the network are modelled as explicit inputs: the
  on-disk index file is an `Option (Option ...)` (missing /
  malformed / parsed), file existence is a boolean-valued function in
  `Env`, and the HTTP responses of one attempt are a `NetBehavior`
  record.  Exceptions are modelled with `Except`.
-/

deriving instance DecidableEq for Except

namespace EarningsAgent

/-- Python `str`, modelled as a list of characters. -/
abbrev Str := List Char

/-- Coerce a Lean string literal into the `Str` model. -/
def str (s : String) : Str := s.data

/-- Python `str.lower()` (ASCII case folding, as used by the repository for
content types and URL suffixes). -/
def strLower (s : Str) : Str := s.map Char.toLower

/-- Python `str.upper()` (ASCII), used for ticker normalization. -/
def strUpper (s : Str) : Str := s.map Char.toUpper

/-- Python `str.strip()`: drop whitespace from both ends. -/
def strTrim (s : Str) : Str :=
  ((s.dropWhile Char.isWhitespace).reverse.dropWhile Char.isWhitespace).reverse

/-- Python `s.split(c)[0]`: everything before the first occurrence of
the character `c`. -/
def takeBefore (c : Char) (s : Str) : Str := s.takeWhile (· ≠ c)

/-- Python `str.endswith`. -/
def strEndsWith (s suffixPart : Str) : Bool := suffixPart.isSuffixOf s

/-- Python lexicographic string comparison `a <= b` (code-point order),
the order used by `sorted(...)` on the archive file names. -/
def lexLe : Str → Str → Bool
  | [], _ => true
  | _ :: _, [] => false
  | a :: as, b :: bs => if a < b then true else if b < a then false else lexLe as bs

/-- Python `str.isdigit()` for ASCII digit strings (nonempty, all
digits), as applied to the Content-Length header. -/
def isDigits (s : Str) : Bool := !s.isEmpty && s.all Char.isDigit

/-- Python `int(s)` on a digit string. -/
def digitsToNat (s : Str) : Nat := s.foldl (fun acc c => acc * 10 + (c.toNat - 48)) 0

/-- Python truthiness of an optional string: `None` and `""` are falsy. -/
def optTruthy (o : Option Str) : Bool :=
  match o with
  | some s => !s.isEmpty
  | none => false

/-- Python `a or b` on optional strings (`b` if `a` is `None` or empty). -/
def orElseStr (a b : Option Str) : Option Str :=
  if optTruthy a then a else b

/-! ## Delta calculator (`src/app/services/delta.py`) -/

/-- Round-half-to-even to the nearest integer, the `round` of Python
applied to the exact rational value. -/
def roundHalfEven (q : ℚ) : ℤ :=
  if q - ⌊q⌋ < 1/2 then ⌊q⌋
  else if (1 : ℚ)/2 < q - ⌊q⌋ then ⌊q⌋ + 1
  else if ⌊q⌋ % 2 = 0 then ⌊q⌋ else ⌊q⌋ + 1

/-- Python `round(x, 2)`: round-half-to-even at two decimal places. -/
def pyRound2 (x : ℚ) : ℚ := (roundHalfEven (x * 100) : ℚ) / 100

/-- Model of `_pct_change` from `src/app/services/delta.py`:
`None` if either input is missing, `None` if the prior is zero, else
`round(((current - prior) / prior) * 100.0, 2)`. -/
def pctChange (current prior : Option ℚ) : Option ℚ :=
  match current, prior with
  | some c, some p => if p = 0 then none else some (pyRound2 ((c - p) / p * 100))
  | _, _ => none

/-! ## URL and path helpers (library calls made by `ingest.py`) -/

/-- Scan for the `://` scheme separator of an absolute URL and return
what follows it. -/
def afterSchemeSep : Str → Option Str
  | [] => none
  | ':' :: '/' :: '/' :: rest => some rest
  | _ :: rest => afterSchemeSep rest

/-- Model of `urlparse(url).path` for the absolute HTTP(S) URLs the service is
given: drop the fragment (first `#`) and query (first `?`), then drop
the scheme and authority, keeping the part from the first `/` after the
authority on. -/
def urlPath (url : Str) : Str :=
  let u := takeBefore '?' (takeBefore '#' url)
  match afterSchemeSep u with
  | none => u
  | some rest => rest.dropWhile (· ≠ '/')

/-- Model of `pathlib.Path(p).name`: the last nonempty `/`-separated segment
(pathlib drops trailing slashes). -/
def pathName (p : Str) : Str :=
  ((p.splitOn '/').filter (fun seg => !seg.isEmpty)).getLastD []

/-! ## Content validation and save paths (`src/app/services/ingest.py`) -/

/-- Model of `ALLOWED_CONTENT_TYPES` from `src/app/config.py` (default
configuration `"text/html,application/pdf"`). -/
def ALLOWED_CONTENT_TYPES : List Str := [str "text/html", str "application/pdf"]

/-- Normalization of a content-type header value:
`content_type.split(";")[0].strip().lower()`. -/
def normalizeCt (s : Str) : Str := strLower (strTrim (takeBefore ';' s))

/-- Model of `_is_allowed_content_type`: `False` for a missing or empty header;
otherwise exact membership of the normalized value in
`ALLOWED_CONTENT_TYPES`. -/
def isAllowedContentType (contentType : Option Str) : Bool :=
  match contentType with
  | none => false
  | some s =>
    if s.isEmpty then false
    else ALLOWED_CONTENT_TYPES.contains (normalizeCt s)

/-- The URL-suffix fallback branch of `_get_extension`: look at the
lower-cased URL path. -/
def urlExtension (url : Str) : Str :=
  let path := strLower (urlPath url)
  if strEndsWith path (str ".pdf") then str ".pdf"
  else if strEndsWith path (str ".html") || strEndsWith path (str ".htm") then str ".html"
  else str ".bin"

/-- Model of `_get_extension`: with a truthy content type, map `text/html` to
`.html` and `application/pdf` to `.pdf`; every other case (including an
unrecognized content type) falls through to the URL-suffix fallback. -/
def getExtension (contentType : Option Str) (url : Str) : Str :=
  match contentType with
  | some s =>
    if s.isEmpty then urlExtension url
    else
      let ct := normalizeCt s
      if ct = str "text/html" then str ".html"
      else if ct = str "application/pdf" then str ".pdf"
      else urlExtension url
  | none => urlExtension url

/-- The URL-derived base file name of `build_save_path`:
`Path(urlparse(url).path).name or "download"`. -/
def baseNameOf (url : Str) : Str :=
  let b := pathName (urlPath url)
  if b.isEmpty then str "download" else b

/-- The file-name part of `build_save_path`: the date as `YYYYMMDD`,
an underscore, and the base name with the extension appended only when
the base name does not already end with it. -/
def buildFileName (today url : Str) (contentType : Option Str) : Str :=
  let b := baseNameOf url
  let ext := getExtension contentType url
  today ++ str "_" ++ (if strEndsWith b ext then b else b ++ ext)

/-- Model of `build_save_path`: `DATA_DIR/raw/TICKER/` (default `DATA_DIR` is
`data`; `ensure_ticker_dir` upper-cases the ticker) joined with the
dated file name. -/
def buildSavePath (today ticker url : Str) (contentType : Option Str) : Str :=
  str "data/raw/" ++ strUpper ticker ++ str "/" ++ buildFileName today url contentType

/-! ## The idempotency index -/

/-- One entry of the on-disk ingest index.  `saved_at` holds the parsed
timestamp in seconds, `none` modelling a `saved_at` string that
`datetime.fromisoformat` rejects; `content_type`/`bytes` model JSON
fields that may be absent. -/
structure IndexRow where
  saved_path : Str
  content_type : Option Str
  bytes : Option Int
  saved_at : Option Int
deriving DecidableEq

/-- The in-memory index: the JSON object keyed by `TICKER|url`. -/
abbrev IndexT := List (Str × IndexRow)

/-- Model of `dict.get` on the loaded index. -/
def lookupRow (index : IndexT) (k : Str) : Option IndexRow :=
  (index.find? (fun kv => kv.1 == k)).map (·.2)

/-- Model of `_index_load`.  The disk state is `none` when the index file does
not exist, `some none` when it exists but its content does not parse as
JSON (the `except` branch), and `some (some idx)` when it parses.  The
first two cases yield the empty index; no case raises. -/
def indexLoad (disk : Option (Option IndexT)) : IndexT :=
  match disk with
  | some (some idx) => idx
  | some none => []
  | none => []

/-- Model of `_index_key`: the key `TICKER|url` with the ticker upper-cased. -/
def indexKey (ticker url : Str) : Str := strUpper ticker ++ str "|" ++ url

/-- Model of the cached content-type read with its falsy default,
`row.get("content_type") or "application/octet-stream"`. -/
def orDefaultCtype (ct : Option Str) : Str :=
  match ct with
  | some s => if s.isEmpty then str "application/octet-stream" else s
  | none => str "application/octet-stream"

/-- The ambient state a fetch call sees: the loaded index, the current
time and TTL in seconds, file existence on disk, the configured
`MAX_BYTES`, and the current `YYYYMMDD` date string. -/
structure Env where
  index : IndexT
  now : Int
  ttl : Int
  fileExists : Str → Bool
  maxBytes : Nat
  today : Str

/-- Model of `_index_get_recent`: look up the composite key; return `None` when
the entry is absent, its `saved_at` does not parse, its age exceeds the
TTL (strict comparison `now - saved_at > timedelta`), or the saved file
no longer exists; otherwise return the cached
`(path, content_type, bytes)` triple with its falsy-field defaults. -/
def indexGetRecent (env : Env) (ticker url : Str) : Option (Str × Str × Int) :=
  match lookupRow env.index (indexKey ticker url) with
  | none => none
  | some row =>
    match row.saved_at with
    | none => none
    | some savedAt =>
      if env.now - savedAt > env.ttl then none
      else if env.fileExists row.saved_path = false then none
      else some (row.saved_path, orDefaultCtype row.content_type, row.bytes.getD 0)

/-! ## One attempt of `fetch_to_disk` -/

/-- The exceptions `fetch_to_disk` can raise: `IngestTooLarge`,
`IngestUnsupportedType(content_type)`, `httpx.RequestError`, and
`httpx.HTTPStatusError` with its response status. -/
inductive IngestError where
  | tooLarge : IngestError
  | unsupportedType (ct : Str) : IngestError
  | requestError : IngestError
  | httpStatusError (status : Nat) : IngestError
deriving DecidableEq

/-- The HEAD response: status plus the optional `content-type` and
`content-length` headers. -/
structure HeadResp where
  status : Nat
  contentType : Option Str
  contentLength : Option Str
deriving DecidableEq

/-- The GET response: status, optional `content-type`, and the stream
of chunk sizes delivered by `iter_bytes`. -/
structure GetResp where
  status : Nat
  contentType : Option Str
  chunks : List Nat
deriving DecidableEq

/-- Behaviour of the network for one attempt; `Except.error` is a
transport-level `httpx.RequestError`. -/
structure NetBehavior where
  head : Except Unit HeadResp
  get : Except Unit GetResp

/-- Result of the streamed write loop: the bytes present in the file
when the loop stops (before any deletion), and whether it completed
without exceeding the limit. -/
structure StreamResult where
  written : Nat
  ok : Bool
deriving DecidableEq

/-- The `for chunk in resp.iter_bytes()` loop: skip empty chunks, add
each chunk's size to the counter, and the moment the counter exceeds
`maxB` stop without writing that chunk (the code then unlinks the file
and raises `IngestTooLarge`); otherwise write the chunk. -/
def streamLoop (maxB : Nat) : List Nat → Nat → StreamResult
  | [], acc => ⟨acc, true⟩
  | c :: rest, acc =>
    if c = 0 then streamLoop maxB rest acc
    else if acc + c > maxB then ⟨acc, false⟩
    else streamLoop maxB rest (acc + c)

/-- Everything observable about one attempt: the returned triple or the
exception, how many HTTP requests were issued, whether a file written
by this attempt remains on disk afterwards (with its byte count), and
the index entry written by `_index_put` on success. -/
structure FetchOutcome where
  result : Except IngestError (Str × Str × Int)
  netRequests : Nat
  writtenFile : Option (Str × Nat)
  indexPut : Option (Str × IndexRow)
deriving DecidableEq

/-- The body of `fetch_to_disk` (one attempt, inside the tenacity
wrapper): cache check, best-effort HEAD probe (a transport error is
swallowed; a disallowed truthy probed type raises
`IngestUnsupportedType`; a digit Content-Length above `MAX_BYTES`
raises `IngestTooLarge`), streamed GET with `raise_for_status`,
size-bounded write, post-transfer type check, index update, return. -/
def fetchAttempt (env : Env) (ticker url : Str) (net : NetBehavior) : FetchOutcome :=
  match indexGetRecent env ticker url with
  | some cached => ⟨.ok cached, 0, none, none⟩
  | none =>
    let headInfo : Option Str × Option Str :=
      match net.head with
      | .error _ => (none, none)
      | .ok h => if h.status < 400 then (h.contentType, h.contentLength) else (none, none)
    let ct := headInfo.1
    let cl := headInfo.2
    if optTruthy ct && !isAllowedContentType ct then
      ⟨.error (.unsupportedType (ct.getD [])), 1, none, none⟩
    else if (match cl with
             | some s => isDigits s && digitsToNat s > env.maxBytes
             | none => false) then
      ⟨.error .tooLarge, 1, none, none⟩
    else
      match net.get with
      | .error _ => ⟨.error .requestError, 2, none, none⟩
      | .ok g =>
        if !(200 ≤ g.status && g.status < 300) then
          ⟨.error (.httpStatusError g.status), 2, none, none⟩
        else
          let contentType := orElseStr g.contentType ct
          let savePath := buildSavePath env.today ticker url contentType
          let sr := streamLoop env.maxBytes g.chunks 0
          if sr.ok = false then
            ⟨.error .tooLarge, 2, none, none⟩
          else if optTruthy contentType && contentType ≠ ct
                  && !isAllowedContentType contentType then
            ⟨.error (.unsupportedType (contentType.getD [])), 2, none, none⟩
          else
            ⟨.ok (savePath, orDefaultCtype contentType, (sr.written : Int)),
             2,
             some (savePath, sr.written),
             some (indexKey ticker url,
                   ⟨savePath, some (orDefaultCtype contentType),
                    some (sr.written : Int), some env.now⟩)⟩

/-! ## The tenacity retry wrapper -/

/-- Model of `_is_retryable`: transport errors and HTTP 5xx are retryable;
everything else is not. -/
def isRetryable : IngestError → Bool
  | .requestError => true
  | .httpStatusError s => 500 ≤ s && s < 600
  | _ => false

/-- One run of the tenacity loop: `f i` is the outcome of attempt `i`
(0-based) and `fuel` the number of retries still permitted.  A success
returns; a non-retryable error re-raises at once; a retryable error
with fuel left retries; with the attempts exhausted the last exception
is re-raised unchanged (`reraise=True`).  Also returns the number of
attempts made. -/
def retryGo {α : Type} (f : Nat → Except IngestError α) :
    Nat → Nat → Except IngestError α × Nat
  | idx, 0 =>
    match f idx with
    | .ok a => (.ok a, idx + 1)
    | .error e => (.error e, idx + 1)
  | idx, fuel + 1 =>
    match f idx with
    | .ok a => (.ok a, idx + 1)
    | .error e =>
      if isRetryable e then retryGo f (idx + 1) fuel else (.error e, idx + 1)

/-- Constant 3 of `stop_after_attempt` in the retry decorator. -/
def STOP_AFTER_ATTEMPTS : Nat := 3

/-- The retry wrapper applied to a sequence of attempt outcomes:
up to `STOP_AFTER_ATTEMPTS` total attempts. -/
def tenacityRetry {α : Type} (f : Nat → Except IngestError α) :
    Except IngestError α × Nat :=
  retryGo f 0 (STOP_AFTER_ATTEMPTS - 1)

/-- Model of `fetch_to_disk` as called: the retry wrapper around the attempt
body, with `nets i` the behaviour of the network on attempt `i`. -/
def fetchToDisk (env : Env) (ticker url : Str) (nets : Nat → NetBehavior) :
    Except IngestError (Str × Str × Int) × Nat :=
  tenacityRetry (fun i => (fetchAttempt env ticker url (nets i)).result)

/-! ## Extraction (`src/app/services/extract.py`) -/

/-- Insert into a descending list: the insertion step of
`sorted(..., reverse=True)`. -/
def insertDesc (x : Str) : List Str → List Str
  | [] => [x]
  | y :: ys => if lexLe y x then x :: y :: ys else y :: insertDesc x ys

/-- Model of `sorted(candidates, reverse=True)`: sort into descending
lexicographic order. -/
def sortDesc : List Str → List Str
  | [] => []
  | x :: xs => insertDesc x (sortDesc xs)

/-- Model of `latest_file_for_ticker`: `dir` is `none` when the ticker has no
raw directory, otherwise the list of file names in it.  Glob the names
ending in `.html`, sort descending, take the first; `404` when the
directory is missing or no candidate exists. -/
def latestFileForTicker (dir : Option (List Str)) : Except Nat Str :=
  match dir with
  | none => .error 404
  | some names =>
    match sortDesc (names.filter (fun n => strEndsWith n (str ".html"))) with
    | [] => .error 404
    | m :: _ => .ok m

/-! ## Claims about the delta calculator and the index loader -/

/-- Claim C4: for every on-disk index state, including a missing file or
one with malformed content, loading the idempotency index yields a
value (the load is total, never raising): load failure yields the empty
index, every lookup on it misses, and a fetch against it starts from a
cache miss. -/
theorem c4_index_load_graceful :
    indexLoad none = [] ∧
    indexLoad (some none) = [] ∧
    (∀ idx : IndexT, indexLoad (some (some idx)) = idx) ∧
    (∀ k : Str, lookupRow (indexLoad (some none)) k = none) ∧
    (∀ (now ttl : Int) (fe : Str → Bool) (mb : Nat) (today t u : Str),
      indexGetRecent ⟨indexLoad (some none), now, ttl, fe, mb, today⟩ t u = none) := by
  refine ⟨rfl, rfl, fun _ => rfl, fun _ => rfl, fun now ttl fe mb today t u => rfl⟩

/-- Claim C7: `pct_change` is total over optional inputs: null when
either input is absent, null when the prior is exactly zero, and a
value in every remaining case. -/
theorem c7_pct_change_total :
    (∀ op : Option ℚ, pctChange none op = none) ∧
    (∀ oc : Option ℚ, pctChange oc none = none) ∧
    (∀ c : ℚ, pctChange (some c) (some 0) = none) ∧
    (∀ c p : ℚ, (pctChange (some c) (some p)).isSome = if p = 0 then false else true) := by
  refine ⟨fun op => ?_, fun oc => ?_, fun c => ?_, fun c p => ?_⟩
  · cases op <;> rfl
  · cases oc <;> rfl
  · simp [pctChange]
  · by_cases hp : p = 0 <;> simp [pctChange, hp]

/-- Claim C8: with both inputs present and a nonzero prior,
`pct_change` is `round(((current - prior) / prior) * 100, 2)`, and in
particular the three sample values of the spec hold
(`14.81`, `-10.0`, `22.5`). -/
theorem c8_pct_change_values :
    (∀ c p : ℚ, pctChange (some c) (some p)
        = if p = 0 then none else some (pyRound2 ((c - p) / p * 100))) ∧
    pctChange (some 62000000000) (some 54000000000) = some (1481/100) ∧
    pctChange (some 90) (some 100) = some (-10) ∧
    pctChange (some (294/100)) (some (240/100)) = some (225/10) := by
  refine ⟨fun c p => rfl, ?_, ?_, ?_⟩
  · simp only [pctChange]
    rw [if_neg (by norm_num)]
    congr 1
    unfold pyRound2 roundHalfEven
    rw [show ((62000000000 : ℚ) - 54000000000) / 54000000000 * 100 * 100 = 40000/27 by
      norm_num]
    rw [show ⌊(40000 : ℚ)/27⌋ = 1481 by rw [Int.floor_eq_iff]; norm_num]
    norm_num
  · simp only [pctChange]
    rw [if_neg (by norm_num)]
    congr 1
    unfold pyRound2 roundHalfEven
    rw [show ((90 : ℚ) - 100) / 100 * 100 * 100 = -1000 by norm_num]
    rw [show ⌊(-1000 : ℚ)⌋ = -1000 by rw [Int.floor_eq_iff]; norm_num]
    norm_num
  · simp only [pctChange]
    rw [if_neg (by norm_num)]
    congr 1
    unfold pyRound2 roundHalfEven
    rw [show ((294/100 : ℚ) - 240/100) / (240/100) * 100 * 100 = 2250 by norm_num]
    rw [show ⌊(2250 : ℚ)⌋ = 2250 by rw [Int.floor_eq_iff]; norm_num]
    norm_num

/-! ## Claim C5: extension choice -/

/-- Claim C5 as stated is false on the code: `_get_extension` with a
known content type that is neither `text/html` nor `application/pdf`
does not return `.bin` — it falls through to URL-suffix inference.
With content type `image/png` and a URL ending in `.pdf` the chosen
extension is `.pdf`, not `.bin`. -/
theorem c5_counterexample :
    getExtension (some (str "image/png")) (str "https://example.com/a.pdf") = str ".pdf"
    ∧ getExtension (some (str "image/png")) (str "https://example.com/a.pdf")
        ≠ str ".bin" := by
  exact ⟨by decide, by decide⟩

/-- Claim C5 amended: if the normalized content type is `text/html` the
extension is `.html`, if `application/pdf` it is `.pdf`; for every
other content type (known or not) `_get_extension` behaves exactly as
when the content type is absent, i.e. it falls back to URL-suffix
inference. -/
theorem c5_extension_mapping :
    ∀ (s : Str) (url : Str),
      (normalizeCt s = str "text/html" → getExtension (some s) url = str ".html") ∧
      (normalizeCt s = str "application/pdf" → getExtension (some s) url = str ".pdf") ∧
      (normalizeCt s ≠ str "text/html" → normalizeCt s ≠ str "application/pdf" →
        getExtension (some s) url = getExtension none url) := by
  intro s url
  refine ⟨fun hn => ?_, fun hn => ?_, fun hn1 hn2 => ?_⟩
  · by_cases hs : s.isEmpty
    · rw [List.isEmpty_iff] at hs
      subst hs
      exact absurd hn (by decide)
    · simp [getExtension, hs, hn]
  · by_cases hs : s.isEmpty
    · rw [List.isEmpty_iff] at hs
      subst hs
      exact absurd hn (by decide)
    · simp [getExtension, hs, hn]
      intro h
      exact absurd h (by decide)
  · by_cases hs : s.isEmpty
    · simp [getExtension, hs]
    · simp [getExtension, hs, hn1, hn2]

/-- Witness for `c5_extension_mapping` at concrete inputs. -/
theorem c5_extension_mapping_witness :
    getExtension (some (str "text/html; charset=utf-8")) (str "https://e.com/a") = str ".html"
    ∧ getExtension (some (str "application/x-zip")) (str "https://e.com/a")
        = getExtension none (str "https://e.com/a") := by
  exact ⟨(c5_extension_mapping (str "text/html; charset=utf-8") (str "https://e.com/a")).1
      (by decide),
    (c5_extension_mapping (str "application/x-zip") (str "https://e.com/a")).2.2
      (by decide) (by decide)⟩

/-! ## Concrete fixtures used by the witnesses -/

/-- An environment with an empty index (every lookup misses). -/
def wEnvMiss : Env := ⟨[], 1000, 600, fun _ => false, 100, str "20240101"⟩

/-- A fresh, parsable index row for the cache-hit fixture. -/
def wRow : IndexRow :=
  ⟨str "data/raw/MSFT/20240101_x.html", some (str "text/html"), some 42, some 900⟩

/-- The fixture URL. -/
def wUrl : Str := str "https://example.com/x.html"

/-- An environment whose index holds a fresh entry for `MSFT|wUrl` and
whose files all exist. -/
def wEnvHit : Env :=
  ⟨[(indexKey (str "MSFT") wUrl, wRow)], 1000, 600, fun _ => true, 100, str "20240101"⟩

/-- Network behaviour: HEAD fails with a transport error, GET returns 404. -/
def wNet404 : NetBehavior := ⟨.error (), .ok ⟨404, none, []⟩⟩

/-- Network behaviour: both requests fail with transport errors. -/
def wNetErr : NetBehavior := ⟨.error (), .error ()⟩

/-- Network behaviour: GET succeeds but streams more bytes than the
100-byte limit of the fixture. -/
def wNetBig : NetBehavior := ⟨.error (), .ok ⟨200, some (str "text/html"), [60, 60]⟩⟩

/-- Network behaviour: both responses succeed with no content-type
header at all. -/
def wNetNoCt : NetBehavior := ⟨.ok ⟨200, none, none⟩, .ok ⟨200, none, [10]⟩⟩

/-! ## Claim C1: idempotency cache -/

/-- Claim C1: when `_index_get_recent` returns a cached triple,
`fetch_to_disk` returns exactly that triple with zero network requests;
and `_index_get_recent` returns none exactly when the entry is absent,
its timestamp does not parse, its age exceeds the TTL, or the saved
file no longer exists. -/
theorem c1_cache_hit_no_network :
    (∀ (env : Env) (t u : Str) (net : NetBehavior) (p c : Str) (b : Int),
      indexGetRecent env t u = some (p, c, b) →
      fetchAttempt env t u net = ⟨.ok (p, c, b), 0, none, none⟩) ∧
    (∀ (env : Env) (t u : Str),
      indexGetRecent env t u = none ↔
        lookupRow env.index (indexKey t u) = none ∨
        ∃ row, lookupRow env.index (indexKey t u) = some row ∧
          (row.saved_at = none ∨
           ∃ ts, row.saved_at = some ts ∧
             (env.now - ts > env.ttl ∨ env.fileExists row.saved_path = false))) := by
  constructor
  · intro env t u net p c b h
    simp only [fetchAttempt, h]
  · intro env t u
    cases hl : lookupRow env.index (indexKey t u) with
    | none => simp [indexGetRecent, hl]
    | some row =>
      cases hsa : row.saved_at with
      | none => simp [indexGetRecent, hl, hsa]
      | some ts =>
        simp only [indexGetRecent, hl, hsa]
        split_ifs with h1 h2 <;> simp_all

/-- Witness for `c1_cache_hit_no_network`: a fresh cached entry is
returned untouched with zero network requests, even against a network
that would fail. -/
theorem c1_witness :
    indexGetRecent wEnvHit (str "MSFT") wUrl
        = some (str "data/raw/MSFT/20240101_x.html", str "text/html", 42) ∧
    fetchAttempt wEnvHit (str "MSFT") wUrl wNet404
        = ⟨.ok (str "data/raw/MSFT/20240101_x.html", str "text/html", 42), 0, none, none⟩ ∧
    indexGetRecent wEnvMiss (str "MSFT") wUrl = none :=
  ⟨by decide,
   c1_cache_hit_no_network.1 wEnvHit (str "MSFT") wUrl wNet404
     (str "data/raw/MSFT/20240101_x.html") (str "text/html") 42 (by decide),
   (c1_cache_hit_no_network.2 wEnvMiss (str "MSFT") wUrl).mpr (Or.inl (by decide))⟩

/-! ## Claim C2: retry policy -/

/-- Bound on the number of attempts the retry loop makes. -/
theorem retryGo_attempts_le {α : Type} (f : Nat → Except IngestError α) :
    ∀ (fuel idx : Nat), (retryGo f idx fuel).2 ≤ idx + fuel + 1 := by
  intro fuel
  induction fuel with
  | zero =>
    intro idx
    cases hf : f idx <;> simp [retryGo, hf]
  | succ n ih =>
    intro idx
    cases hf : f idx with
    | ok a => simp [retryGo, hf]
    | error e =>
      simp only [retryGo, hf]
      split_ifs with hr
      · have := ih (idx + 1)
        omega
      · show idx + 1 ≤ idx + (n + 1) + 1
        omega

/-- Claim C2: `fetch_to_disk` is retried only on transport errors or
HTTP 5xx; other exceptions propagate immediately after one attempt; at
most 3 total attempts are made; after exhaustion the last exception
propagates unchanged; and a retryable first failure followed by a
success returns that success on attempt two. -/
theorem c2_retry_policy :
    (∀ (env : Env) (t u : Str) (nets : Nat → NetBehavior) (e : IngestError),
      isRetryable e = false →
      (fetchAttempt env t u (nets 0)).result = .error e →
      fetchToDisk env t u nets = (.error e, 1)) ∧
    (∀ (env : Env) (t u : Str) (nets : Nat → NetBehavior),
      (fetchToDisk env t u nets).2 ≤ STOP_AFTER_ATTEMPTS) ∧
    (∀ (env : Env) (t u : Str) (nets : Nat → NetBehavior) (e0 e1 e2 : IngestError),
      isRetryable e0 = true → isRetryable e1 = true →
      (fetchAttempt env t u (nets 0)).result = .error e0 →
      (fetchAttempt env t u (nets 1)).result = .error e1 →
      (fetchAttempt env t u (nets 2)).result = .error e2 →
      fetchToDisk env t u nets = (.error e2, 3)) ∧
    (∀ (env : Env) (t u : Str) (nets : Nat → NetBehavior) (e : IngestError)
        (r : Str × Str × Int),
      isRetryable e = true →
      (fetchAttempt env t u (nets 0)).result = .error e →
      (fetchAttempt env t u (nets 1)).result = .ok r →
      fetchToDisk env t u nets = (.ok r, 2)) ∧
    isRetryable .requestError = true ∧
    (∀ s, isRetryable (.httpStatusError s) = (decide (500 ≤ s) && decide (s < 600))) ∧
    isRetryable .tooLarge = false ∧
    (∀ ct, isRetryable (.unsupportedType ct) = false) := by
  refine ⟨?_, ?_, ?_, ?_, rfl, fun s => rfl, rfl, fun ct => rfl⟩
  · intro env t u nets e he h0
    simp [fetchToDisk, tenacityRetry, STOP_AFTER_ATTEMPTS, retryGo, h0, he]
  · intro env t u nets
    exact retryGo_attempts_le _ 2 0
  · intro env t u nets e0 e1 e2 he0 he1 h0 h1 h2
    simp [fetchToDisk, tenacityRetry, STOP_AFTER_ATTEMPTS, retryGo, h0, h1, h2, he0, he1]
  · intro env t u nets e r he h0 h1
    simp [fetchToDisk, tenacityRetry, STOP_AFTER_ATTEMPTS, retryGo, h0, h1, he]

/-- Witness for `c2_retry_policy`: a 404 (non-retryable) propagates
after one attempt; persistent transport errors exhaust all 3 attempts
and the last transport error propagates unchanged. -/
theorem c2_witness :
    isRetryable (.httpStatusError 404) = false ∧
    fetchToDisk wEnvMiss (str "MSFT") wUrl (fun _ => wNet404)
        = (.error (.httpStatusError 404), 1) ∧
    fetchToDisk wEnvMiss (str "MSFT") wUrl (fun _ => wNetErr)
        = (.error .requestError, 3) :=
  ⟨by decide,
   c2_retry_policy.1 wEnvMiss (str "MSFT") wUrl (fun _ => wNet404)
     (.httpStatusError 404) (by decide) (by decide),
   c2_retry_policy.2.2.1 wEnvMiss (str "MSFT") wUrl (fun _ => wNetErr)
     .requestError .requestError .requestError (by decide) (by decide)
     (by decide) (by decide) (by decide)⟩

/-! ## Claim C3: streamed size enforcement -/

/-- The stream loop aborts exactly when the total chunk volume exceeds
the limit (given the invariant that the bytes already written fit). -/
theorem streamLoop_ok_iff (maxB : Nat) :
    ∀ (chunks : List Nat) (acc : Nat), acc ≤ maxB →
      ((streamLoop maxB chunks acc).ok = false ↔ maxB < acc + chunks.sum) := by
  intro chunks
  induction chunks with
  | nil =>
    intro acc hacc
    simp [streamLoop]
    omega
  | cons c rest ih =>
    intro acc hacc
    by_cases hc : c = 0
    · subst hc
      simpa [streamLoop] using ih acc hacc
    · simp only [streamLoop, if_neg hc]
      by_cases hover : acc + c > maxB
      · rw [if_pos hover]
        simp [List.sum_cons]
        omega
      · rw [if_neg hover]
        rw [ih (acc + c) (by omega)]
        simp [List.sum_cons]
        omega

/-- The bytes present in the destination file never exceed the limit:
the chunk that would cross it (and everything after) is never written. -/
theorem streamLoop_written_le (maxB : Nat) :
    ∀ (chunks : List Nat) (acc : Nat), acc ≤ maxB →
      (streamLoop maxB chunks acc).written ≤ maxB := by
  intro chunks
  induction chunks with
  | nil =>
    intro acc hacc
    simpa [streamLoop] using hacc
  | cons c rest ih =>
    intro acc hacc
    by_cases hc : c = 0
    · subst hc
      simpa [streamLoop] using ih acc hacc
    · simp only [streamLoop, if_neg hc]
      by_cases hover : acc + c > maxB
      · rw [if_pos hover]
        exact hacc
      · rw [if_neg hover]
        exact ih (acc + c) (by omega)

/-- Claim C3: the streamed transfer aborts exactly when the cumulative
bytes exceed `MAX_BYTES`; the crossing chunk and everything after it
are never written (bytes on disk stay within the limit); and on such an
abort `fetch_to_disk` raises `TooLarge` with no destination file left
on disk. -/
theorem c3_size_enforcement :
    (∀ (maxB : Nat) (chunks : List Nat),
      (streamLoop maxB chunks 0).ok = false ↔ maxB < chunks.sum) ∧
    (∀ (maxB : Nat) (chunks : List Nat),
      (streamLoop maxB chunks 0).written ≤ maxB) ∧
    (∀ (env : Env) (t u : Str) (net : NetBehavior) (g : GetResp),
      indexGetRecent env t u = none →
      net.head = .error () →
      net.get = .ok g →
      200 ≤ g.status → g.status < 300 →
      env.maxBytes < g.chunks.sum →
      (fetchAttempt env t u net).result = .error .tooLarge ∧
      (fetchAttempt env t u net).writtenFile = none) := by
  refine ⟨?_, ?_, ?_⟩
  · intro maxB chunks
    simpa using streamLoop_ok_iff maxB chunks 0 (Nat.zero_le _)
  · intro maxB chunks
    exact streamLoop_written_le maxB chunks 0 (Nat.zero_le _)
  · intro env t u net g hmiss hhead hget hs1 hs2 hbig
    have hok : (streamLoop env.maxBytes g.chunks 0).ok = false := by
      rw [streamLoop_ok_iff env.maxBytes g.chunks 0 (Nat.zero_le _)]
      simpa using hbig
    simp only [fetchAttempt, hmiss, hhead, hget]
    simp [optTruthy, hs1, hs2, hok]

/-- Witness for `c3_size_enforcement`: a 120-byte stream against a
100-byte limit is aborted with `TooLarge` and leaves no file. -/
theorem c3_witness :
    (fetchAttempt wEnvMiss (str "MSFT") wUrl wNetBig).result = .error .tooLarge ∧
    (fetchAttempt wEnvMiss (str "MSFT") wUrl wNetBig).writtenFile = none :=
  c3_size_enforcement.2.2 wEnvMiss (str "MSFT") wUrl wNetBig
    ⟨200, some (str "text/html"), [60, 60]⟩
    (by decide) rfl rfl (by decide) (by decide) (by decide)

/-! ## Claim C10: document with no content-type header -/

/-- Claim C10: a response with no content-type header anywhere is never
rejected as `UnsupportedType` — both validation checkpoints fire only
for a truthy content type, even though `_is_allowed_content_type(None)`
is `False` — and `fetch_to_disk` saves it under the URL-inferred path
and returns the generic `application/octet-stream` label. -/
theorem c10_missing_content_type_accepted :
    isAllowedContentType none = false ∧
    (∀ (env : Env) (t u : Str) (net : NetBehavior) (h : HeadResp) (g : GetResp),
      indexGetRecent env t u = none →
      net.head = .ok h → h.status < 400 → h.contentType = none → h.contentLength = none →
      net.get = .ok g → 200 ≤ g.status → g.status < 300 → g.contentType = none →
      (streamLoop env.maxBytes g.chunks 0).ok = true →
      (fetchAttempt env t u net).result
        = .ok (buildSavePath env.today t u none, str "application/octet-stream",
            ((streamLoop env.maxBytes g.chunks 0).written : Int)) ∧
      ∀ (ct2 : Str), (fetchAttempt env t u net).result ≠ .error (.unsupportedType ct2)) := by
  refine ⟨rfl, ?_⟩
  intro env t u net h g hmiss hhead hst hct hcl hget hs1 hs2 hgct hok
  have hres : (fetchAttempt env t u net).result
      = .ok (buildSavePath env.today t u none, str "application/octet-stream",
          ((streamLoop env.maxBytes g.chunks 0).written : Int)) := by
    simp only [fetchAttempt, hmiss, hhead, hget]
    simp [hst, hct, hcl, optTruthy, hs1, hs2, hgct, hok, orElseStr, orDefaultCtype]
  refine ⟨hres, fun ct2 => ?_⟩
  rw [hres]
  intro hcontra
  exact Except.noConfusion hcontra

/-- Witness for `c10_missing_content_type_accepted`: a 10-byte document
with no content-type header is accepted and labelled
`application/octet-stream`. -/
theorem c10_witness :
    (fetchAttempt wEnvMiss (str "MSFT") wUrl wNetNoCt).result
      = .ok (buildSavePath wEnvMiss.today (str "MSFT") wUrl none,
          str "application/octet-stream", 10) ∧
    ∀ (ct2 : Str),
      (fetchAttempt wEnvMiss (str "MSFT") wUrl wNetNoCt).result
        ≠ .error (.unsupportedType ct2) :=
  (c10_missing_content_type_accepted.2 wEnvMiss (str "MSFT") wUrl wNetNoCt
    ⟨200, none, none⟩ ⟨200, none, [10]⟩
    (by decide) rfl (by decide) rfl rfl rfl (by decide) (by decide) rfl (by decide))

/-! ## Claim C9: latest archived HTML file -/

/-- Reflexivity of `lexLe`. -/
theorem lexLe_refl : ∀ s : Str, lexLe s s = true := by
  intro s
  induction s with
  | nil => rfl
  | cons c cs ih => simp [lexLe, ih]

/-- Totality of `lexLe`. -/
theorem lexLe_total : ∀ a b : Str, lexLe a b = true ∨ lexLe b a = true := by
  intro a
  induction a with
  | nil =>
    intro b
    left
    rfl
  | cons c cs ih =>
    intro b
    cases b with
    | nil =>
      right
      rfl
    | cons d ds =>
      rcases lt_trichotomy c d with h | h | h
      · left
        simp [lexLe, h]
      · subst h
        rcases ih ds with h2 | h2
        · left
          simp [lexLe, h2]
        · right
          simp [lexLe, h2]
      · right
        simp [lexLe, h]

/-- Transitivity of `lexLe`. -/
theorem lexLe_trans : ∀ a b c : Str,
    lexLe a b = true → lexLe b c = true → lexLe a c = true := by
  intro a
  induction a with
  | nil =>
    intro b c _ _
    rfl
  | cons x xs ih =>
    intro b c h1 h2
    cases b with
    | nil => simp [lexLe] at h1
    | cons y ys =>
      cases c with
      | nil => simp [lexLe] at h2
      | cons z zs =>
        simp only [lexLe] at h1 h2 ⊢
        rcases lt_trichotomy x y with hxy | hxy | hxy
        · rcases lt_trichotomy y z with hyz | hyz | hyz
          · simp [lt_trans hxy hyz]
          · subst hyz
            simp [hxy]
          · rw [if_neg (asymm hyz), if_pos hyz] at h2
            exact absurd h2 (by decide)
        · subst hxy
          rw [if_neg (lt_irrefl x), if_neg (lt_irrefl x)] at h1
          rcases lt_trichotomy x z with hxz | hxz | hxz
          · simp [hxz]
          · subst hxz
            rw [if_neg (lt_irrefl x), if_neg (lt_irrefl x)] at h2 ⊢
            exact ih ys zs h1 h2
          · rw [if_neg (asymm hxz), if_pos hxz] at h2
            exact absurd h2 (by decide)
        · rw [if_neg (asymm hxy), if_pos hxy] at h1
          exact absurd h1 (by decide)

/-- Membership in `insertDesc`. -/
theorem mem_insertDesc (x y : Str) : ∀ l : List Str,
    (y ∈ insertDesc x l ↔ y = x ∨ y ∈ l) := by
  intro l
  induction l with
  | nil => simp [insertDesc]
  | cons z zs ih =>
    simp only [insertDesc]
    split_ifs with h
    · simp [List.mem_cons]
    · simp only [List.mem_cons, ih]
      tauto

/-- Membership is invariant under `sortDesc`. -/
theorem mem_sortDesc (y : Str) : ∀ l : List Str, (y ∈ sortDesc l ↔ y ∈ l) := by
  intro l
  induction l with
  | nil => simp [sortDesc]
  | cons x xs ih => simp [sortDesc, mem_insertDesc, ih]

/-- The head of the descending sort is a maximum of the list. -/
theorem sortDesc_head_max : ∀ (l : List Str) (m : Str) (rest : List Str),
    sortDesc l = m :: rest → m ∈ l ∧ ∀ x ∈ l, lexLe x m = true := by
  intro l
  induction l with
  | nil =>
    intro m rest h
    simp [sortDesc] at h
  | cons x xs ih =>
    intro m rest h
    simp only [sortDesc] at h
    cases hs : sortDesc xs with
    | nil =>
      rw [hs] at h
      simp only [insertDesc] at h
      injection h with hm hr
      subst hm
      refine ⟨List.mem_cons_self x xs, fun y hy => ?_⟩
      rcases List.mem_cons.mp hy with rfl | hy2
      · exact lexLe_refl y
      · rw [← mem_sortDesc y xs, hs] at hy2
        simp at hy2
    | cons m2 rest2 =>
      rw [hs] at h
      obtain ⟨hmem2, hmax2⟩ := ih m2 rest2 hs
      simp only [insertDesc] at h
      split_ifs at h with hcmp
      · injection h with hm hr
        subst hm
        refine ⟨List.mem_cons_self x xs, fun y hy => ?_⟩
        rcases List.mem_cons.mp hy with rfl | hy2
        · exact lexLe_refl y
        · exact lexLe_trans y m2 x (hmax2 y hy2) hcmp
      · injection h with hm hr
        subst hm
        refine ⟨List.mem_cons_of_mem x hmem2, fun y hy => ?_⟩
        rcases List.mem_cons.mp hy with rfl | hy2
        · rcases lexLe_total y m2 with ht | ht
          · exact ht
          · exact absurd ht hcmp
        · exact hmax2 y hy2

/-- Claim C9: `latest_file_for_ticker` selects, among the names ending
in `.html`, the lexicographically greatest one; it fails with 404 both
when the ticker has no raw directory and when no HTML candidate
exists. -/
theorem c9_latest_file :
    latestFileForTicker none = .error 404 ∧
    (∀ (names : List Str),
      ((names.filter (fun n => strEndsWith n (str ".html"))) = [] →
        latestFileForTicker (some names) = .error 404) ∧
      (∀ m : Str, latestFileForTicker (some names) = .ok m →
        m ∈ names.filter (fun n => strEndsWith n (str ".html")) ∧
        ∀ x ∈ names.filter (fun n => strEndsWith n (str ".html")),
          lexLe x m = true)) := by
  refine ⟨rfl, fun names => ⟨fun hnil => ?_, fun m hm => ?_⟩⟩
  · simp [latestFileForTicker, hnil, sortDesc]
  · simp only [latestFileForTicker] at hm
    cases hs : sortDesc (names.filter (fun n => strEndsWith n (str ".html"))) with
    | nil =>
      rw [hs] at hm
      simp at hm
    | cons m2 rest2 =>
      rw [hs] at hm
      simp only [Except.ok.injEq] at hm
      subst hm
      exact sortDesc_head_max _ m2 rest2 hs

/-- File names of the fixture directory for the `c9` witness. -/
def wNames : List Str := [str "20240101_a.html", str "x.pdf", str "20240202_b.html"]

/-- Witness for `c9_latest_file`: the greatest dated HTML name wins and
dominates every candidate. -/
theorem c9_witness :
    latestFileForTicker (some wNames) = .ok (str "20240202_b.html") ∧
    (str "20240202_b.html") ∈ wNames.filter (fun n => strEndsWith n (str ".html")) ∧
    ∀ x ∈ wNames.filter (fun n => strEndsWith n (str ".html")),
      lexLe x (str "20240202_b.html") = true :=
  ⟨by decide,
   ((c9_latest_file.2 wNames).2 (str "20240202_b.html") (by decide)).1,
   ((c9_latest_file.2 wNames).2 (str "20240202_b.html") (by decide)).2⟩

/-! ## Claim C6: file-name suffixes -/

/-- Lemma: `_get_extension` always returns one of the three extensions. -/
theorem getExtension_cases (ct : Option Str) (url : Str) :
    getExtension ct url = str ".html" ∨ getExtension ct url = str ".pdf"
      ∨ getExtension ct url = str ".bin" := by
  cases ct with
  | none =>
    simp only [getExtension, urlExtension]
    split_ifs <;> simp
  | some s =>
    simp only [getExtension, urlExtension]
    split_ifs <;> simp

/-- Decomposing a suffix of an append: it is either a suffix of the
right part, or reaches into the left part with a nonempty overhang. -/
theorem suffix_split {l p b : Str} (h : l <:+ p ++ b) :
    l <:+ b ∨ ∃ e, e ≠ [] ∧ l = e ++ b ∧ e <:+ p := by
  obtain ⟨t, ht⟩ := h
  by_cases hlen : l.length ≤ b.length
  · left
    have hl : t.length + l.length = p.length + b.length := by
      have := congrArg List.length ht
      simpa using this
    have hsplit : t.take p.length ++ (t.drop p.length ++ l) = p ++ b := by
      rw [← List.append_assoc, List.take_append_drop]
      exact ht
    have hp := List.append_inj hsplit (by rw [List.length_take]; omega)
    exact ⟨t.drop p.length, hp.2⟩
  · push_neg at hlen
    right
    have hsplit : (t ++ l.take (l.length - b.length)) ++ l.drop (l.length - b.length)
        = p ++ b := by
      rw [List.append_assoc, List.take_append_drop]
      exact ht
    have hdl : (l.drop (l.length - b.length)).length = b.length := by
      rw [List.length_drop]
      omega
    have hp := List.append_inj' hsplit hdl
    refine ⟨l.take (l.length - b.length), ?_, ?_, ⟨t, hp.1⟩⟩
    · have : (l.take (l.length - b.length)).length = l.length - b.length := by
        rw [List.length_take]
        omega
      intro hnil
      rw [hnil] at this
      simp at this
      omega
    · conv_lhs => rw [← List.take_append_drop (l.length - b.length) l]
      rw [hp.2]

/-- Claim C6 as stated is false on the code: the extension is appended
only when the basename does not already end with it, but a basename
that itself carries a doubled suffix passes through unchanged, so
`build_save_path` can yield a filename ending in `.html.html`. -/
theorem c6_counterexample :
    buildFileName (str "20240101") (str "https://example.com/foo.html.html") none
      = str "20240101_foo.html.html" ∧
    strEndsWith (buildFileName (str "20240101") (str "https://example.com/foo.html.html") none)
      (str ".html.html") = true :=
  ⟨by decide, by decide⟩

/-- Claim C6 amended: the filename is `YYYYMMDD_basename` with the
extension appended only if the basename does not already end with it;
the filename always ends in one of `.html`, `.pdf`, `.bin`; and when
the extension is appended the function never introduces a doubled
suffix — a doubled suffix can only come in through the basename of
the URL itself. -/
theorem c6_filename_suffix :
    ∀ (today ticker url : Str) (ct : Option Str),
      buildSavePath today ticker url ct
        = str "data/raw/" ++ strUpper ticker ++ str "/" ++ buildFileName today url ct ∧
      (getExtension ct url = str ".html" ∨ getExtension ct url = str ".pdf"
        ∨ getExtension ct url = str ".bin") ∧
      strEndsWith (buildFileName today url ct) (getExtension ct url) = true ∧
      (strEndsWith (baseNameOf url) (getExtension ct url) = false →
        buildFileName today url ct
          = (today ++ str "_") ++ (baseNameOf url ++ getExtension ct url) ∧
        strEndsWith (buildFileName today url ct)
          (getExtension ct url ++ getExtension ct url) = false) := by
  intro today ticker url ct
  refine ⟨rfl, getExtension_cases ct url, ?_, fun hb => ?_⟩
  · rw [strEndsWith, List.isSuffixOf_iff_suffix]
    simp only [buildFileName]
    cases hEnd : strEndsWith (baseNameOf url) (getExtension ct url) with
    | true =>
      simp only [hEnd, if_true]
      have h1 : getExtension ct url <:+ baseNameOf url := by
        rw [strEndsWith] at hEnd
        exact List.isSuffixOf_iff_suffix.mp hEnd
      exact h1.trans (List.suffix_append (today ++ str "_") (baseNameOf url))
    | false =>
      simp only [hEnd, Bool.false_eq_true, if_false]
      have h1 := List.suffix_append ((today ++ str "_") ++ baseNameOf url)
        (getExtension ct url)
      rw [List.append_assoc] at h1
      exact h1
  · have hfn : buildFileName today url ct
        = (today ++ str "_") ++ (baseNameOf url ++ getExtension ct url) := by
      simp only [buildFileName, hb, Bool.false_eq_true, if_false]
    refine ⟨hfn, ?_⟩
    rw [strEndsWith, ← Bool.not_eq_true, List.isSuffixOf_iff_suffix]
    intro hsuf
    rw [hfn, ← List.append_assoc] at hsuf
    obtain ⟨t, ht⟩ := hsuf
    have hcancel : (t ++ getExtension ct url) ++ getExtension ct url
        = ((today ++ str "_") ++ baseNameOf url) ++ getExtension ct url := by
      rw [List.append_assoc]
      exact ht
    have hsfx : getExtension ct url <:+ (today ++ str "_") ++ baseNameOf url :=
      ⟨t, List.append_cancel_right hcancel⟩
    have hnotus : '_' ∉ getExtension ct url := by
      rcases getExtension_cases ct url with hx | hx | hx <;> rw [hx] <;> decide
    rcases suffix_split hsfx with hcase | ⟨e, hne, hee, hep⟩
    · have := List.isSuffixOf_iff_suffix.mpr hcase
      rw [strEndsWith] at hb
      rw [this] at hb
      exact Bool.noConfusion hb
    · rcases List.eq_nil_or_concat e with rfl | ⟨e0, c, rfl⟩
      · exact hne rfl
      · obtain ⟨t2, ht2⟩ := hep
        rw [List.concat_eq_append] at ht2
        have hconc : (t2 ++ e0) ++ [c] = today ++ str "_" := by
          rw [List.append_assoc]
          exact ht2
        have hc1 : ([c] : Str) = str "_" := (List.append_inj' hconc rfl).2
        have hc2 : c = '_' := by
          have hc1' : ([c] : Str) = ['_'] := hc1
          injection hc1'
        apply hnotus
        rw [hee, hc2]
        simp

/-- Witness for `c6_filename_suffix` at a concrete URL whose basename
does not carry the extension. -/
theorem c6_filename_suffix_witness :
    strEndsWith (baseNameOf (str "https://example.com/report")) (str ".html") = false ∧
    buildFileName (str "20240101") (str "https://example.com/report")
        (some (str "text/html"))
      = (str "20240101" ++ str "_") ++ (baseNameOf (str "https://example.com/report")
          ++ getExtension (some (str "text/html")) (str "https://example.com/report")) ∧
    strEndsWith (buildFileName (str "20240101") (str "https://example.com/report")
        (some (str "text/html")))
      (getExtension (some (str "text/html")) (str "https://example.com/report")
        ++ getExtension (some (str "text/html")) (str "https://example.com/report"))
      = false :=
  ⟨by decide,
   ((c6_filename_suffix (str "20240101") (str "T") (str "https://example.com/report")
      (some (str "text/html"))).2.2.2 (by decide)).1,
   ((c6_filename_suffix (str "20240101") (str "T") (str "https://example.com/report")
      (some (str "text/html"))).2.2.2 (by decide)).2⟩

end EarningsAgent
